import Mathlib

/-!
Verification of the per-frame analytics core of the smart-social-distancing
repository, shallowly embedded in Lean 4.

Sources embedded:
* `libs/distancing.py` — class `Distancing`: detection post-processing
  (`ignore_large_boxes`, `non_max_suppression_fast`), the three distance
  estimation methods (`calculate_box_distances`,
  `calculate_distance_of_two_points_of_boxes`,
  `transform_to_world_coordinate`) and the `process_video` lifecycle skeleton.
* `api/processor_api.py` — the `restart_processor` control-channel sequence.

Numeric model: Python floats on geometric data are modelled by exact rationals
(`ℚ`); `math.sqrt` and the Euclidean norm of `scipy.spatial.distance.cdist`
are modelled by `Real.sqrt` over `ℝ`.  Python dictionaries holding the four
4-component fields of a detection are modelled by a structure of `Quad`s.
-/

namespace SmartDistancing

/-- A 4-component row, standing for one of the 4-element lists the Python code
stores under the `bbox` / `centroid` / `bboxReal` / `centroidReal` keys. -/
structure Quad where
  q0 : ℚ
  q1 : ℚ
  q2 : ℚ
  q3 : ℚ
deriving DecidableEq, Repr

instance : Inhabited Quad := ⟨⟨0, 0, 0, 0⟩⟩

/-- One detected object.  `bbox` is the normalized `[x0, y0, x1, y1]` box,
`centroid` the normalized `[cx, cy, w, h]`, and `bboxReal` / `centroidReal`
their pixel-scaled counterparts (scaled by the output resolution). -/
structure Detection where
  bbox : Quad
  centroid : Quad
  bboxReal : Quad
  centroidReal : Quad
deriving DecidableEq, Repr

instance : Inhabited Detection := ⟨⟨default, default, default, default⟩⟩

/-! ## Control channel (`api/processor_api.py`) -/

/-- The two command tokens of `share.commands.Commands` used by the API. -/
inductive Command where
  | PROCESS_VIDEO_CFG : Command
  | STOP_PROCESS_VIDEO : Command
deriving DecidableEq, Repr

/-- `restart_processor` from `api/processor_api.py` (lines 173–183).

The command queue is modelled by the returned list of issued commands, and the
two blocking `self._result_queue.get()` calls are modelled by the parameters
`stop_result` (the reply to `STOP_PROCESS_VIDEO`) and `start_result` (the
reply to `PROCESS_VIDEO_CFG`, read only if the start command is issued).
The returned boolean is the value `restart_processor` returns.

Python source:
```
self._cmd_queue.put(Commands.STOP_PROCESS_VIDEO)
stopped = self._result_queue.get()
if stopped:
    self._cmd_queue.put(Commands.PROCESS_VIDEO_CFG)
    started = self._result_queue.get()
    if not started:
        return False
return True
```
-/
def restart_processor (stop_result start_result : Bool) : List Command × Bool :=
  let cmds : List Command := [Command.STOP_PROCESS_VIDEO]
  if stop_result then
    let cmds := cmds ++ [Command.PROCESS_VIDEO_CFG]
    if !start_result then (cmds, false) else (cmds, true)
  else
    (cmds, true)

/-! ## Orchestrator lifecycle skeleton (`Distancing.process_video`) -/

/-- The mutable per-session state of `Distancing` relevant to lifecycle:
the cooperative-cancellation flag `running_video`. -/
structure Session where
  running_video : Bool
deriving DecidableEq, Repr

/-- The while-loop body of `process_video`: each entry of `frames` is one
`input_cap.read()` outcome (`true` = a valid frame, `false` = an empty frame,
which the loop skips via `continue`).  Returns the final `frame_num`. -/
def processLoop : List Bool → Nat → Nat
  | [], frame_num => frame_num
  | f :: rest, frame_num => processLoop rest (if f then frame_num + 1 else frame_num)

/-- Lifecycle skeleton of `Distancing.process_video` (lines 124–232),
abstracting the external detector, writers and visualization.  `opened` is the
result of `input_cap.isOpened()`; `frames` is the stream of decode outcomes.
Returns the final session state and the number of frames processed.

If the source fails to open, the function returns immediately (before
`self.running_video = True` and before the loop); otherwise it sets
`running_video`, runs the loop, and clears `running_video` on exit. -/
def process_video (opened : Bool) (frames : List Bool) (s : Session) : Session × Nat :=
  if !opened then
    (s, 0)
  else
    let s1 : Session := { s with running_video := true }
    let frame_num := processLoop frames 0
    ({ s1 with running_video := false }, frame_num)

/-! ## Detection post-processing: oversized-box rejection -/

/-- An indexed selection `[j for i, j in enumerate(l) if g i]`:
keeps the elements whose (0-based, here starting at `s`) position satisfies
`g`, preserving order. -/
def selectByIdx (g : Nat → Bool) : Nat → List α → List α
  | _, [] => []
  | i, a :: rest =>
    if g i then a :: selectByIdx g (i + 1) rest else selectByIdx g (i + 1) rest

/-- The `large_boxes` index list of `Distancing.ignore_large_boxes`:
indices `i` with `object_list[i]["centroid"][2] * object_list[i]["centroid"][3] > 0.25`. -/
def large_box_indices (object_list : List Detection) : List Nat :=
  (List.range object_list.length).filter
    (fun i => decide ((object_list.getD i default).centroid.q2 *
                      (object_list.getD i default).centroid.q3 > (0.25 : ℚ)))

/-- `Distancing.ignore_large_boxes` (lines 270–287): drop every detection whose
normalized centroid area `w*h` exceeds `0.25`, via the index list
`large_boxes` and the comprehension
`[j for i, j in enumerate(object_list) if i not in large_boxes]`. -/
def ignore_large_boxes (object_list : List Detection) : List Detection :=
  selectByIdx (fun i => !((large_box_indices object_list).contains i)) 0 object_list

/-! ## Detection post-processing: non-maximum suppression -/

/-- The sort criterion of the NMS: `cy + h/2` (the bottom edge of the
normalized box), from `idxs = np.argsort(cy + (h / 2))`. -/
def bottomEdge (d : Detection) : ℚ := d.centroid.q1 + d.centroid.q3 / 2

/-- `area = (h + 1) * (w + 1)` computed from the normalized centroid. -/
def nmsArea (d : Detection) : ℚ := (d.centroid.q3 + 1) * (d.centroid.q2 + 1)

/-- The overlap ratio computed inside the NMS loop for a kept detection `di`
against a not-yet-decided detection `dj`: clipped-rectangle intersection
(with the `+1` convention) divided by `area[j]`. -/
def overlapRatio (di dj : Detection) : ℚ :=
  let xx1 := max di.bbox.q0 dj.bbox.q0
  let yy1 := max di.bbox.q1 dj.bbox.q1
  let xx2 := min di.bbox.q2 dj.bbox.q2
  let yy2 := min di.bbox.q3 dj.bbox.q3
  let w := max 0 (xx2 - xx1 + 1)
  let h := max 0 (yy2 - yy1 + 1)
  (w * h) / nmsArea dj

/-- Stable insertion of index `i` into an index list sorted ascending by
`keyf`: `i` is placed after every index whose key is `≤ keyf i`. -/
def insertIdxAsc (keyf : Nat → ℚ) (i : Nat) : List Nat → List Nat
  | [] => [i]
  | j :: rest =>
    if keyf j ≤ keyf i then j :: insertIdxAsc keyf i rest else i :: j :: rest

/-- `np.argsort(cy + (h / 2))`, determinized as a stable sort: the indices
`0, …, n-1` sorted ascending by `bottomEdge`, equal keys kept in index
order. -/
def argsortBottom (l : List Detection) : List Nat :=
  (List.range l.length).foldl
    (fun acc i => insertIdxAsc (fun j => bottomEdge (l.getD j default)) i acc) []

/-- The `while len(idxs) > 0` loop of `non_max_suppression_fast`: take the last
index `i` of `idxs` (the largest sort key), append it to `pick`, and delete
from `idxs` both position `last` and every not-yet-decided index whose overlap
with `i` exceeds `overlapThresh`.  The loop consumes at least one index per
iteration, so `fuel = idxs.length` suffices. -/
def nmsLoop (l : List Detection) (overlapThresh : ℚ) : Nat → List Nat → List Nat
  | 0, _ => []
  | _ + 1, [] => []
  | fuel + 1, j :: rest =>
    let idxs := j :: rest
    let i := idxs.getLastD 0
    let keep := idxs.dropLast.filter
      (fun k => decide (overlapRatio (l.getD i default) (l.getD k default) ≤ overlapThresh))
    i :: nmsLoop l overlapThresh fuel keep

/-- `Distancing.non_max_suppression_fast` (lines 289–340): greedy NMS.  Empty
input returns `[]`; otherwise the picked indices are computed by `nmsLoop`
over the argsorted index list and the result is
`[j for i, j in enumerate(object_list) if i in pick]`. -/
def non_max_suppression_fast (object_list : List Detection) (overlapThresh : ℚ) :
    List Detection :=
  if object_list.length = 0 then []
  else
    let idxs := argsortBottom object_list
    let pick := nmsLoop object_list overlapThresh idxs.length idxs
    selectByIdx (fun i => pick.contains i) 0 object_list

/-- Reformulation of `nmsLoop` that consumes the index list from the front;
`nmsLoop` applied to an (ascending-sorted) index list agrees with
`nmsLoopRev` applied to its reverse.  Used to reason about the loop. -/
def nmsLoopRev (l : List Detection) (overlapThresh : ℚ) : Nat → List Nat → List Nat
  | 0, _ => []
  | _ + 1, [] => []
  | fuel + 1, i :: rest =>
    i :: nmsLoopRev l overlapThresh fuel
      (rest.filter
        (fun k => decide (overlapRatio (l.getD i default) (l.getD k default) ≤ overlapThresh)))

/-- Strict lexicographic order on indices: first by the key `kf`, ties broken
by the index itself.  The stable ascending argsort is sorted by this order. -/
def lexLt (kf : Nat → ℚ) (a b : Nat) : Prop :=
  kf a < kf b ∨ (kf a = kf b ∧ a < b)

/-! ## Distance estimation -/

/-- A `(x, y, h)` point handed to `calculate_distance_of_two_points_of_boxes`:
a pixel location plus the pixel height of the box it belongs to. -/
structure PointH where
  x : ℚ
  y : ℚ
  h : ℚ
deriving DecidableEq, Repr

/-- The squared physical displacement `lx² + ly²` of
`calculate_distance_of_two_points_of_boxes`, kept in `ℚ`:
`lx = dx * 170 * (1/h1 + 1/h2) / 2` and likewise `ly`. -/
def sqPointDist (p1 p2 : PointH) : ℚ :=
  let dx := p2.x - p1.x
  let dy := p2.y - p1.y
  let lx := dx * 170 * (1 / p1.h + 1 / p2.h) / 2
  let ly := dy * 170 * (1 / p1.h + 1 / p2.h) / 2
  lx ^ 2 + ly ^ 2

/-- `Distancing.calculate_distance_of_two_points_of_boxes` (lines 342–372):
`l = math.sqrt(lx ** 2 + ly ** 2)`. -/
noncomputable def calculate_distance_of_two_points_of_boxes (p1 p2 : PointH) : ℝ :=
  Real.sqrt (sqPointDist p1 p2)

/-- A 3×3 matrix, the inverse homography `self.h_inv` of the calibration
file; row-major fields. -/
structure Mat3 where
  a00 : ℚ
  a01 : ℚ
  a02 : ℚ
  a10 : ℚ
  a11 : ℚ
  a12 : ℚ
  a20 : ℚ
  a21 : ℚ
  a22 : ℚ
deriving DecidableEq, Repr

/-- Python `int()`: truncation toward zero. -/
def pyInt (q : ℚ) : ℤ := if 0 ≤ q then ⌊q⌋ else ⌈q⌉

/-- `Distancing.transform_to_world_coordinate` (lines 447–463): project the
homogeneous point `(int((bboxReal[0] + bboxReal[2]) / 2), bboxReal[3], 1)`
through `h_inv` and divide by the homogeneous coordinate. -/
def transform_to_world_coordinate (h_inv : Mat3) (bbox : Detection) : ℚ × ℚ :=
  let fp0 : ℚ := (pyInt ((bbox.bboxReal.q0 + bbox.bboxReal.q2) / 2) : ℚ)
  let fp1 : ℚ := bbox.bboxReal.q3
  let w0 := h_inv.a00 * fp0 + h_inv.a01 * fp1 + h_inv.a02
  let w1 := h_inv.a10 * fp0 + h_inv.a11 * fp1 + h_inv.a12
  let w2 := h_inv.a20 * fp0 + h_inv.a21 * fp1 + h_inv.a22
  (w0 / w2, w1 / w2)

/-- The same projection as the specification words it ("project the
bottom-center pixel `((x0+x2)/2, y1, 1)` through the inverse homography"),
i.e. without the `int()` truncation the source applies.  Kept separately to
compare with `transform_to_world_coordinate`. -/
def transform_to_world_coordinate_claimed (h_inv : Mat3) (bbox : Detection) : ℚ × ℚ :=
  let fp0 : ℚ := (bbox.bboxReal.q0 + bbox.bboxReal.q2) / 2
  let fp1 : ℚ := bbox.bboxReal.q3
  let w0 := h_inv.a00 * fp0 + h_inv.a01 * fp1 + h_inv.a02
  let w1 := h_inv.a10 * fp0 + h_inv.a11 * fp1 + h_inv.a12
  let w2 := h_inv.a20 * fp0 + h_inv.a21 * fp1 + h_inv.a22
  (w0 / w2, w1 / w2)

/-- Squared Euclidean distance of two world points, kept in `ℚ`. -/
def sqEuclid (p q : ℚ × ℚ) : ℚ := (p.1 - q.1) ^ 2 + (p.2 - q.2) ^ 2

/-- Euclidean distance of two world points. -/
noncomputable def euclid (p q : ℚ × ℚ) : ℝ := Real.sqrt (sqEuclid p q)

/-- `scipy.spatial.distance.cdist` with the default Euclidean metric, on
2-dimensional points. -/
noncomputable def cdist (xa xb : List (ℚ × ℚ)) : List (List ℝ) :=
  xa.map (fun p => xb.map (fun q => euclid p q))

/-- The three values of the `DistMethod` configuration key. -/
inductive DistMethod where
  | CalibratedDistance : DistMethod
  | CenterPointsDistance : DistMethod
  | FourCornerPointsDistance : DistMethod
deriving DecidableEq, Repr

/-- The `(x, y, h)` triple built from corner `(cx, cy)` of a box together with
the box's own pixel height `centroidReal[3]`. -/
def cornerPoint (cx cy : ℚ) (d : Detection) : PointH := ⟨cx, cy, d.centroidReal.q3⟩

/-- The `FourCornerPointsDistance` entry for a pair of boxes: the minimum of
the four corner-pair distances (lower-left, lower-right, upper-left,
upper-right, each corner paired with its own box's height). -/
noncomputable def fourCornerDistance (a b : Detection) : ℝ :=
  let l1 := calculate_distance_of_two_points_of_boxes
    (cornerPoint a.bboxReal.q0 a.bboxReal.q1 a) (cornerPoint b.bboxReal.q0 b.bboxReal.q1 b)
  let l2 := calculate_distance_of_two_points_of_boxes
    (cornerPoint a.bboxReal.q2 a.bboxReal.q1 a) (cornerPoint b.bboxReal.q2 b.bboxReal.q1 b)
  let l3 := calculate_distance_of_two_points_of_boxes
    (cornerPoint a.bboxReal.q0 a.bboxReal.q3 a) (cornerPoint b.bboxReal.q0 b.bboxReal.q3 b)
  let l4 := calculate_distance_of_two_points_of_boxes
    (cornerPoint a.bboxReal.q2 a.bboxReal.q3 a) (cornerPoint b.bboxReal.q2 b.bboxReal.q3 b)
  min (min (min l1 l2) l3) l4

/-- The `CenterPointsDistance` entry for a pair of boxes:
`calculate_distance_of_two_points_of_boxes` on the two pixel-scaled centroids
`(centroidReal[0], centroidReal[1])` with heights `centroidReal[3]`. -/
noncomputable def centerPointsDistance (a b : Detection) : ℝ :=
  calculate_distance_of_two_points_of_boxes
    ⟨a.centroidReal.q0, a.centroidReal.q1, a.centroidReal.q3⟩
    ⟨b.centroidReal.q0, b.centroidReal.q1, b.centroidReal.q3⟩

/-- `Distancing.calculate_box_distances` (lines 374–445).  For
`CalibratedDistance`, the world points of all boxes are computed by
`transform_to_world_coordinate` and the matrix is `cdist(points, points)`
(`np.array([])`, i.e. `[]`, when there are no boxes).  Otherwise the matrix is
built by the double loop with `l = 0` on the diagonal and the method's pair
distance off the diagonal. -/
noncomputable def calculate_box_distances (dist_method : DistMethod) (h_inv : Mat3)
    (nn_out : List Detection) : List (List ℝ) :=
  if dist_method = DistMethod.CalibratedDistance then
    let world_coordinate_points := nn_out.map (fun bbox => transform_to_world_coordinate h_inv bbox)
    if world_coordinate_points.length = 0 then []
    else cdist world_coordinate_points world_coordinate_points
  else
    (List.range nn_out.length).map (fun i =>
      (List.range nn_out.length).map (fun j =>
        if i = j then (0 : ℝ)
        else if dist_method = DistMethod.FourCornerPointsDistance then
          fourCornerDistance (nn_out.getD i default) (nn_out.getD j default)
        else
          centerPointsDistance (nn_out.getD i default) (nn_out.getD j default)))

/-! ## Concrete instances used by witnesses and counterexamples -/

/-- The spec's example box A: `bbox = (0.1, 0.1, 0.3, 0.3)`, derived centroid
`(cx, cy, w, h) = (0.2, 0.2, 0.2, 0.2)` (pixel-scaled fields for a 100×100
resolution). -/
def exampleBoxA : Detection :=
  { bbox := ⟨0.1, 0.1, 0.3, 0.3⟩
    centroid := ⟨0.2, 0.2, 0.2, 0.2⟩
    bboxReal := ⟨10, 10, 30, 30⟩
    centroidReal := ⟨20, 20, 20, 20⟩ }

/-- The spec's example box B: `bbox = (0.12, 0.12, 0.32, 0.32)`, derived
centroid `(0.22, 0.22, 0.2, 0.2)`. -/
def exampleBoxB : Detection :=
  { bbox := ⟨0.12, 0.12, 0.32, 0.32⟩
    centroid := ⟨0.22, 0.22, 0.2, 0.2⟩
    bboxReal := ⟨12, 12, 32, 32⟩
    centroidReal := ⟨22, 22, 20, 20⟩ }

/-- The 3×3 identity matrix, used as a concrete inverse homography. -/
def idMat : Mat3 := ⟨1, 0, 0, 0, 1, 0, 0, 0, 1⟩

/-- A box of pixel height 100 whose pixel center is `(0, 0)`. -/
def centerBox1 : Detection :=
  { bbox := ⟨0, 0, 0, 0⟩
    centroid := ⟨0, 0, 0, 0⟩
    bboxReal := ⟨-25, -50, 25, 50⟩
    centroidReal := ⟨0, 0, 50, 100⟩ }

/-- A box of pixel height 100 whose pixel center is `(100, 0)`. -/
def centerBox2 : Detection :=
  { bbox := ⟨0, 0, 0, 0⟩
    centroid := ⟨0, 0, 0, 0⟩
    bboxReal := ⟨75, -50, 125, 50⟩
    centroidReal := ⟨100, 0, 50, 100⟩ }

/-- A box with pixel corners `(0,0)`–`(10,20)`, pixel height 20. -/
def cornerBox1 : Detection :=
  { bbox := ⟨0, 0, 0, 0⟩
    centroid := ⟨0, 0, 0, 0⟩
    bboxReal := ⟨0, 0, 10, 20⟩
    centroidReal := ⟨5, 10, 10, 20⟩ }

/-- `cornerBox1` translated by 100 px in x: corners `(100,0)`–`(110,20)`. -/
def cornerBox2 : Detection :=
  { bbox := ⟨0, 0, 0, 0⟩
    centroid := ⟨0, 0, 0, 0⟩
    bboxReal := ⟨100, 0, 110, 20⟩
    centroidReal := ⟨105, 10, 10, 20⟩ }

/-- A box with `bboxReal = (0, 0, 1, 1)`: its bottom-center x is `0.5`, which
Python's `int()` truncates to `0`. -/
def calibBoxA : Detection :=
  { bbox := ⟨0, 0, 0, 0⟩
    centroid := ⟨0, 0, 0, 0⟩
    bboxReal := ⟨0, 0, 1, 1⟩
    centroidReal := ⟨0, 0, 0, 0⟩ }

/-- A box with `bboxReal = (10, 0, 10, 1)`: bottom-center x exactly `10`. -/
def calibBoxB : Detection :=
  { bbox := ⟨0, 0, 0, 0⟩
    centroid := ⟨0, 0, 0, 0⟩
    bboxReal := ⟨10, 0, 10, 1⟩
    centroidReal := ⟨0, 0, 0, 0⟩ }

/-! ## Helper lemmas about `selectByIdx` -/

theorem selectByIdx_eq_filter {α : Type} (p : α → Bool) :
    ∀ (l : List α) (s : Nat) (g : Nat → Bool),
      (∀ i (h : i < l.length), g (s + i) = p (l.get ⟨i, h⟩)) →
      selectByIdx g s l = l.filter p := by
  intro l
  induction l with
  | nil => intro s g _; rfl
  | cons a rest ih =>
    intro s g hg
    have h0 : g s = p a := by
      have := hg 0 (by simp)
      simpa using this
    have hrec : selectByIdx g (s + 1) rest = rest.filter p := by
      apply ih
      intro i h
      have := hg (i + 1) (by simpa using Nat.succ_lt_succ h)
      simpa [Nat.add_assoc, Nat.add_comm 1 i] using this
    by_cases hpa : p a = true
    · simp [selectByIdx, h0, hpa, List.filter_cons, hrec]
    · have hpa' : p a = false := by
        cases hq : p a
        · rfl
        · exact absurd hq hpa
      simp [selectByIdx, h0, hpa', List.filter_cons, hrec]

theorem selectByIdx_sublist {α : Type} (g : Nat → Bool) :
    ∀ (l : List α) (s : Nat), (selectByIdx g s l).Sublist l := by
  intro l
  induction l with
  | nil => intro s; simp [selectByIdx]
  | cons a rest ih =>
    intro s
    by_cases hg : g s = true
    · simpa [selectByIdx, hg] using (ih (s + 1)).cons₂ a
    · have hg' : g s = false := by
        cases hq : g s
        · rfl
        · exact absurd hq hg
      simpa [selectByIdx, hg'] using (ih (s + 1)).cons a

theorem selectByIdx_all {α : Type} (g : Nat → Bool) :
    ∀ (l : List α) (s : Nat), (∀ i, s ≤ i → i < s + l.length → g i = true) →
      selectByIdx g s l = l := by
  intro l
  induction l with
  | nil => intro s _; rfl
  | cons a rest ih =>
    intro s hall
    have h0 : g s = true := hall s (Nat.le_refl s) (by simp [Nat.lt_add_of_pos_right, Nat.succ_pos])
    have hrec : selectByIdx g (s + 1) rest = rest := by
      apply ih
      intro i h1 h2
      refine hall i (Nat.le_of_succ_le h1) ?_
      simpa [Nat.add_comm, Nat.add_assoc, Nat.add_left_comm] using h2
    simp [selectByIdx, h0, hrec]

/-! ## Claim theorems: control channel and lifecycle -/

/-- C1: at the failing input (the stop step replies `false`), the code of
`restart_processor` issues only `STOP_PROCESS_VIDEO` — the start command
`PROCESS_VIDEO_CFG` is indeed never issued — but it reports overall success
(`True`) to the caller instead of the failure the specification requires. -/
theorem restart_processor_stop_failure_reports_success (start_result : Bool) :
    restart_processor false start_result = ([Command.STOP_PROCESS_VIDEO], true) := by
  rfl

/-- C9: if the video source fails to open, `process_video` returns with the
session state unchanged (in particular the `running_video` flag keeps its
prior value, `false` for an idle session) and zero loop iterations; and the
state it leaves behind lets a later `start` run exactly as a fresh one,
finishing back in the idle state. -/
theorem process_video_unopened_returns_idle (frames : List Bool) (s : Session) :
    process_video false frames s = (s, 0) ∧
    process_video true frames (process_video false frames s).1 =
      process_video true frames s ∧
    (process_video true frames s).1.running_video = false := by
  refine ⟨rfl, rfl, ?_⟩
  simp [process_video]

/-! ## Claim theorems: oversized-box rejection -/

/-- C2: `ignore_large_boxes` removes exactly the detections whose normalized
centroid area `w*h` exceeds `0.25` and keeps every other detection unchanged,
in the original relative order — it is the order-preserving filter by
`w*h ≤ 0.25`. -/
theorem ignore_large_boxes_eq_filter (object_list : List Detection) :
    ignore_large_boxes object_list =
      object_list.filter
        (fun d => decide (d.centroid.q2 * d.centroid.q3 ≤ (0.25 : ℚ))) := by
  unfold ignore_large_boxes
  apply selectByIdx_eq_filter
  intro i h
  simp only [Nat.zero_add]
  have hcont : ((large_box_indices object_list).contains i = true) ↔
      ((object_list.get ⟨i, h⟩).centroid.q2 * (object_list.get ⟨i, h⟩).centroid.q3
        > (0.25 : ℚ)) := by
    simp [large_box_indices, List.elem_iff, List.mem_filter, List.mem_range, h,
      List.getD_eq_getElem _ _ h]
  rcases hq : (large_box_indices object_list).contains i with _ | _
  · have : ¬ ((object_list.get ⟨i, h⟩).centroid.q2 * (object_list.get ⟨i, h⟩).centroid.q3
        > (0.25 : ℚ)) := by
      intro hgt
      have := hcont.mpr hgt
      rw [hq] at this
      exact Bool.false_ne_true this
    simpa using le_of_not_lt this
  · have hgt := hcont.mp hq
    simpa using not_le_of_lt hgt

/-! ## Claim theorems: non-maximum suppression, basic shape -/

/-- C10: the output of `non_max_suppression_fast` is a subsequence of its
input: the kept detections appear in the same relative order as in the input
list. -/
theorem nms_output_sublist_input (object_list : List Detection) (overlapThresh : ℚ) :
    (non_max_suppression_fast object_list overlapThresh).Sublist object_list := by
  unfold non_max_suppression_fast
  by_cases h : object_list.length = 0
  · simp [h]
  · rw [if_neg h]
    exact selectByIdx_sublist _ object_list 0

/-- C3: for two detections whose overlap ratio (clipped-rectangle
intersection over `area = (h+1)*(w+1)` of the other box) exceeds the
threshold, `non_max_suppression_fast` keeps the one with the larger bottom
edge `cy + h/2` and drops the other, whichever order they arrive in.
In particular the spec's example boxes A and B at threshold 0.3 give `[B]`
(see the witness). -/
theorem nms_keeps_larger_bottom_edge (a b : Detection) (t : ℚ)
    (hkey : bottomEdge a < bottomEdge b)
    (hov : overlapRatio b a > t) :
    non_max_suppression_fast [a, b] t = [b] ∧
    non_max_suppression_fast [b, a] t = [b] := by
  have hab : (bottomEdge a ≤ bottomEdge b) = True := by
    simp [le_of_lt hkey]
  have hba : (bottomEdge b ≤ bottomEdge a) = False := by
    simp [not_le_of_lt hkey]
  have hovd : decide (overlapRatio b a ≤ t) = false :=
    decide_eq_false (not_le_of_lt hov)
  constructor
  · simp [non_max_suppression_fast, argsortBottom, insertIdxAsc, nmsLoop, selectByIdx,
      List.range_succ, hab, hba, hovd, List.getD]
  · simp [non_max_suppression_fast, argsortBottom, insertIdxAsc, nmsLoop, selectByIdx,
      List.range_succ, hab, hba, hovd, List.getD]

/-- Witness for C3: on the spec's example boxes A and B at threshold `0.3`,
the hypotheses hold (`cy + h/2` is `0.3 < 0.32`, the overlap ratio
`1.3924/1.44` exceeds `0.3`) and NMS keeps B and drops A. -/
theorem nms_keeps_larger_bottom_edge_witness :
    non_max_suppression_fast [exampleBoxA, exampleBoxB] 0.3 = [exampleBoxB] ∧
    non_max_suppression_fast [exampleBoxB, exampleBoxA] 0.3 = [exampleBoxB] :=
  nms_keeps_larger_bottom_edge exampleBoxA exampleBoxB 0.3
    (by norm_num [bottomEdge, exampleBoxA, exampleBoxB])
    (by norm_num [overlapRatio, nmsArea, exampleBoxA, exampleBoxB])

/-! ## Helper lemmas about list indexing and the distance kernels -/

theorem getD_map_of_lt {β γ : Type} (f : β → γ) (l : List β) (d : γ) (db : β) {i : Nat}
    (h : i < l.length) : (l.map f).getD i d = f (l.getD i db) := by
  rw [List.getD_eq_getElem _ _ (by simpa using h), List.getD_eq_getElem _ _ h]
  simp

theorem getD_map_range_of_lt {γ : Type} (f : Nat → γ) (d : γ) {i n : Nat} (h : i < n) :
    ((List.range n).map f).getD i d = f i := by
  rw [List.getD_eq_getElem _ _ (by simpa using h)]
  simp

theorem sqPointDist_comm (p q : PointH) : sqPointDist p q = sqPointDist q p := by
  unfold sqPointDist
  ring

theorem sqPointDist_self (p : PointH) : sqPointDist p p = 0 := by
  unfold sqPointDist
  ring

theorem point_dist_comm (p q : PointH) :
    calculate_distance_of_two_points_of_boxes p q =
    calculate_distance_of_two_points_of_boxes q p := by
  unfold calculate_distance_of_two_points_of_boxes
  rw [sqPointDist_comm]

theorem centerPointsDistance_comm (a b : Detection) :
    centerPointsDistance a b = centerPointsDistance b a := by
  unfold centerPointsDistance
  rw [point_dist_comm]

theorem fourCornerDistance_comm (a b : Detection) :
    fourCornerDistance a b = fourCornerDistance b a := by
  unfold fourCornerDistance
  rw [point_dist_comm (cornerPoint a.bboxReal.q0 a.bboxReal.q1 a),
    point_dist_comm (cornerPoint a.bboxReal.q2 a.bboxReal.q1 a),
    point_dist_comm (cornerPoint a.bboxReal.q0 a.bboxReal.q3 a),
    point_dist_comm (cornerPoint a.bboxReal.q2 a.bboxReal.q3 a)]

theorem sqEuclid_comm (p q : ℚ × ℚ) : sqEuclid p q = sqEuclid q p := by
  unfold sqEuclid
  ring

theorem sqEuclid_self (p : ℚ × ℚ) : sqEuclid p p = 0 := by
  unfold sqEuclid
  ring

theorem euclid_comm (p q : ℚ × ℚ) : euclid p q = euclid q p := by
  unfold euclid
  rw [sqEuclid_comm]

theorem euclid_self (p : ℚ × ℚ) : euclid p p = 0 := by
  unfold euclid
  rw [sqEuclid_self]
  simp

/-! ## Claim theorem: shape, diagonal and symmetry of the distance matrix -/

/-- C5: for each of the three distance methods and every list of tracked
objects, `calculate_box_distances` produces an N×N matrix (N rows, each of
length N) whose diagonal entries are `0` and which is symmetric; zero tracked
objects yield the empty matrix, not an error. -/
theorem box_distances_square_zero_diag_symm (dist_method : DistMethod) (h_inv : Mat3)
    (l : List Detection) :
    calculate_box_distances dist_method h_inv [] = [] ∧
    (calculate_box_distances dist_method h_inv l).length = l.length ∧
    (∀ i, i < l.length →
      ((calculate_box_distances dist_method h_inv l).getD i []).length = l.length) ∧
    (∀ i, i < l.length →
      ((calculate_box_distances dist_method h_inv l).getD i []).getD i 0 = 0) ∧
    (∀ i j, i < l.length → j < l.length →
      ((calculate_box_distances dist_method h_inv l).getD i []).getD j 0 =
      ((calculate_box_distances dist_method h_inv l).getD j []).getD i 0) := by
  by_cases hdm : dist_method = DistMethod.CalibratedDistance
  · subst hdm
    refine ⟨by simp [calculate_box_distances, cdist], ?_, ?_, ?_, ?_⟩
    · by_cases hl : l.length = 0
      · rw [List.length_eq_zero] at hl
        subst hl
        simp [calculate_box_distances, cdist]
      · simp [calculate_box_distances, cdist, hl]
    · intro i hi
      have hl : ¬ l.length = 0 := Nat.pos_iff_ne_zero.mp (Nat.lt_of_le_of_lt (Nat.zero_le i) hi)
      unfold calculate_box_distances
      rw [if_pos rfl]
      simp only [List.length_map]
      rw [if_neg hl]
      unfold cdist
      rw [getD_map_of_lt _ _ _ (transform_to_world_coordinate h_inv default)
        (by simpa using hi)]
      simp
    · intro i hi
      have hl : ¬ l.length = 0 := Nat.pos_iff_ne_zero.mp (Nat.lt_of_le_of_lt (Nat.zero_le i) hi)
      unfold calculate_box_distances
      rw [if_pos rfl]
      simp only [List.length_map]
      rw [if_neg hl]
      unfold cdist
      rw [getD_map_of_lt _ _ _ (transform_to_world_coordinate h_inv default)
        (by simpa using hi)]
      rw [getD_map_of_lt _ _ _ (transform_to_world_coordinate h_inv default)
        (by simpa using hi)]
      exact euclid_self _
    · intro i j hi hj
      have hl : ¬ l.length = 0 := Nat.pos_iff_ne_zero.mp (Nat.lt_of_le_of_lt (Nat.zero_le i) hi)
      unfold calculate_box_distances
      rw [if_pos rfl]
      simp only [List.length_map]
      rw [if_neg hl]
      unfold cdist
      rw [getD_map_of_lt _ _ _ (transform_to_world_coordinate h_inv default)
          (by simpa using hi),
        getD_map_of_lt _ _ _ (transform_to_world_coordinate h_inv default)
          (by simpa using hj),
        getD_map_of_lt _ _ _ (transform_to_world_coordinate h_inv default)
          (by simpa using hj),
        getD_map_of_lt _ _ _ (transform_to_world_coordinate h_inv default)
          (by simpa using hi)]
      exact euclid_comm _ _
  · refine ⟨by simp [calculate_box_distances, hdm], ?_, ?_, ?_, ?_⟩
    · simp [calculate_box_distances, hdm]
    · intro i hi
      simp only [calculate_box_distances, if_neg hdm]
      rw [getD_map_range_of_lt _ _ hi]
      simp
    · intro i hi
      simp only [calculate_box_distances, if_neg hdm]
      rw [getD_map_range_of_lt _ _ hi, getD_map_range_of_lt _ _ hi]
      simp
    · intro i j hi hj
      simp only [calculate_box_distances, if_neg hdm]
      rw [getD_map_range_of_lt _ _ hi, getD_map_range_of_lt _ _ hj,
        getD_map_range_of_lt _ _ hj, getD_map_range_of_lt _ _ hi]
      by_cases hij : i = j
      · simp [hij]
      · have hji : ¬ j = i := fun h => hij h.symm
        rw [if_neg hij, if_neg hji]
        by_cases hfc : dist_method = DistMethod.FourCornerPointsDistance
        · rw [if_pos hfc, if_pos hfc]
          exact fourCornerDistance_comm _ _
        · rw [if_neg hfc, if_neg hfc]
          exact centerPointsDistance_comm _ _

/-! ## Claim theorems: the three distance formulas -/

/-- C6: under `CenterPointsDistance`, the off-diagonal entry `[i][j]` is
`sqrt((dx*170*(1/h1+1/h2)/2)² + (dy*170*(1/h1+1/h2)/2)²)` where
`(dx, dy)` is the difference of the pixel-scaled centroids and `h1`, `h2`
are the boxes' pixel heights. -/
theorem center_points_entry_formula (h_inv : Mat3) (l : List Detection) (i j : Nat)
    (hi : i < l.length) (hj : j < l.length) (hij : i ≠ j) :
    ((calculate_box_distances DistMethod.CenterPointsDistance h_inv l).getD i []).getD j 0 =
    Real.sqrt
      (((((l.getD j default).centroidReal.q0 - (l.getD i default).centroidReal.q0) * 170 *
          (1 / (l.getD i default).centroidReal.q3 + 1 / (l.getD j default).centroidReal.q3) /
          2) ^ 2 +
        (((l.getD j default).centroidReal.q1 - (l.getD i default).centroidReal.q1) * 170 *
          (1 / (l.getD i default).centroidReal.q3 + 1 / (l.getD j default).centroidReal.q3) /
          2) ^ 2 : ℚ)) := by
  unfold calculate_box_distances
  rw [if_neg (by simp)]
  rw [getD_map_range_of_lt _ _ hi, getD_map_range_of_lt _ _ hj]
  rw [if_neg hij, if_neg (by simp)]
  rfl

/-- Witness for C6 (the spec's example): two boxes of height 100 px with
pixel centers `(0,0)` and `(100,0)` are at distance exactly 170 cm. -/
theorem center_points_entry_formula_witness :
    ((calculate_box_distances DistMethod.CenterPointsDistance idMat
        [centerBox1, centerBox2]).getD 0 []).getD 1 0 = 170 := by
  rw [center_points_entry_formula idMat [centerBox1, centerBox2] 0 1
    (by norm_num) (by norm_num) (by norm_num)]
  norm_num [centerBox1, centerBox2]
  rw [show (28900 : ℝ) = 170 ^ 2 by norm_num]
  exact Real.sqrt_sq (by norm_num)

/-- Witness for C5: for the `CenterPointsDistance` method on a concrete
two-object list, the matrix is 2×2 with zero diagonal and symmetric, and the
empty list yields the empty matrix. -/
theorem box_distances_square_zero_diag_symm_witness :
    calculate_box_distances DistMethod.CenterPointsDistance idMat [] = [] ∧
    (calculate_box_distances DistMethod.CenterPointsDistance idMat
      [centerBox1, centerBox2]).length = 2 ∧
    ((calculate_box_distances DistMethod.CenterPointsDistance idMat
      [centerBox1, centerBox2]).getD 0 []).length = 2 ∧
    ((calculate_box_distances DistMethod.CenterPointsDistance idMat
      [centerBox1, centerBox2]).getD 0 []).getD 0 0 = 0 ∧
    ((calculate_box_distances DistMethod.CenterPointsDistance idMat
      [centerBox1, centerBox2]).getD 0 []).getD 1 0 =
      ((calculate_box_distances DistMethod.CenterPointsDistance idMat
        [centerBox1, centerBox2]).getD 1 []).getD 0 0 := by
  have h := box_distances_square_zero_diag_symm DistMethod.CenterPointsDistance idMat
    [centerBox1, centerBox2]
  exact ⟨h.1, by simpa using h.2.1, by simpa using h.2.2.1 0 (by norm_num),
    h.2.2.2.1 0 (by norm_num), h.2.2.2.2 0 1 (by norm_num) (by norm_num)⟩

/-- C7: under `FourCornerPointsDistance`, the off-diagonal entry `[i][j]` is
the minimum of the four corner-pair distances: the pinhole formula applied to
the corresponding pixel-scaled corners (`(x0,y0)` with `(x0,y0)`, `(x2,y0)`
with `(x2,y0)`, `(x0,y3)` with `(x0,y3)`, `(x2,y3)` with `(x2,y3)` of
`bboxReal`), each corner paired with its own box's pixel height
`centroidReal[3]`. -/
theorem four_corner_entry_formula (h_inv : Mat3) (l : List Detection) (i j : Nat)
    (hi : i < l.length) (hj : j < l.length) (hij : i ≠ j) :
    ((calculate_box_distances DistMethod.FourCornerPointsDistance h_inv l).getD i []).getD j 0 =
    min (min (min
      (calculate_distance_of_two_points_of_boxes
        ⟨(l.getD i default).bboxReal.q0, (l.getD i default).bboxReal.q1,
          (l.getD i default).centroidReal.q3⟩
        ⟨(l.getD j default).bboxReal.q0, (l.getD j default).bboxReal.q1,
          (l.getD j default).centroidReal.q3⟩)
      (calculate_distance_of_two_points_of_boxes
        ⟨(l.getD i default).bboxReal.q2, (l.getD i default).bboxReal.q1,
          (l.getD i default).centroidReal.q3⟩
        ⟨(l.getD j default).bboxReal.q2, (l.getD j default).bboxReal.q1,
          (l.getD j default).centroidReal.q3⟩))
      (calculate_distance_of_two_points_of_boxes
        ⟨(l.getD i default).bboxReal.q0, (l.getD i default).bboxReal.q3,
          (l.getD i default).centroidReal.q3⟩
        ⟨(l.getD j default).bboxReal.q0, (l.getD j default).bboxReal.q3,
          (l.getD j default).centroidReal.q3⟩))
      (calculate_distance_of_two_points_of_boxes
        ⟨(l.getD i default).bboxReal.q2, (l.getD i default).bboxReal.q3,
          (l.getD i default).centroidReal.q3⟩
        ⟨(l.getD j default).bboxReal.q2, (l.getD j default).bboxReal.q3,
          (l.getD j default).centroidReal.q3⟩) := by
  unfold calculate_box_distances
  rw [if_neg (by simp)]
  rw [getD_map_range_of_lt _ _ hi, getD_map_range_of_lt _ _ hj]
  rw [if_neg hij, if_pos rfl]
  rfl

/-- Witness for C7: for two boxes of height 20 px separated by 100 px
horizontally, all four corner-pair distances are `100·170·(2/20)/2 = 850` cm,
so the entry is 850. -/
theorem four_corner_entry_formula_witness :
    ((calculate_box_distances DistMethod.FourCornerPointsDistance idMat
        [cornerBox1, cornerBox2]).getD 0 []).getD 1 0 = 850 := by
  rw [four_corner_entry_formula idMat [cornerBox1, cornerBox2] 0 1
    (by norm_num) (by norm_num) (by norm_num)]
  have h850 : Real.sqrt (722500 : ℝ) = 850 := by
    rw [show (722500 : ℝ) = 850 ^ 2 by norm_num]
    exact Real.sqrt_sq (by norm_num)
  norm_num [calculate_distance_of_two_points_of_boxes, sqPointDist, cornerBox1, cornerBox2,
    h850]

/-- C8 (amended): under `CalibratedDistance`, entry `[i][j]` is the Euclidean
distance between the world points of objects `i` and `j`, where each world
point is obtained by `transform_to_world_coordinate`: projecting the
homogeneous point `(int((x0+x2)/2), y1, 1)` — the bottom-center x-coordinate
truncated to an integer by Python's `int()` — through the inverse homography
and dividing by the homogeneous coordinate. -/
theorem calibrated_entry_formula (h_inv : Mat3) (l : List Detection) (i j : Nat)
    (hi : i < l.length) (hj : j < l.length) :
    ((calculate_box_distances DistMethod.CalibratedDistance h_inv l).getD i []).getD j 0 =
    Real.sqrt
      ((((transform_to_world_coordinate h_inv (l.getD i default)).1 -
          (transform_to_world_coordinate h_inv (l.getD j default)).1) ^ 2 +
        ((transform_to_world_coordinate h_inv (l.getD i default)).2 -
          (transform_to_world_coordinate h_inv (l.getD j default)).2) ^ 2 : ℚ)) := by
  have hl : ¬ l.length = 0 := Nat.pos_iff_ne_zero.mp (Nat.lt_of_le_of_lt (Nat.zero_le i) hi)
  unfold calculate_box_distances
  rw [if_pos rfl]
  simp only [List.length_map]
  rw [if_neg hl]
  unfold cdist
  rw [getD_map_of_lt _ _ _ (transform_to_world_coordinate h_inv default)
      (by simpa using hi),
    getD_map_of_lt _ _ _ (transform_to_world_coordinate h_inv default)
      (by simpa using hj),
    getD_map_of_lt _ _ _ default hi, getD_map_of_lt _ _ _ default hj]
  rfl

/-- Counterexample for C8 as stated: with the identity inverse homography and
the boxes `calibBoxA`, `calibBoxB`, the code's matrix entry `[0][1]` is
`sqrt((0-10)²) = 10` (the bottom-center x of box A, `0.5`, is truncated to `0`
by `int()`), while the claimed formula — projecting the untruncated
bottom-center `((x0+x2)/2, y1, 1)` — gives `sqrt((0.5-10)²) = 9.5`. -/
theorem calibrated_entry_formula_counterexample :
    ((calculate_box_distances DistMethod.CalibratedDistance idMat
        [calibBoxA, calibBoxB]).getD 0 []).getD 1 0 ≠
    Real.sqrt
      ((((transform_to_world_coordinate_claimed idMat calibBoxA).1 -
          (transform_to_world_coordinate_claimed idMat calibBoxB).1) ^ 2 +
        ((transform_to_world_coordinate_claimed idMat calibBoxA).2 -
          (transform_to_world_coordinate_claimed idMat calibBoxB).2) ^ 2 : ℚ)) := by
  have hA : transform_to_world_coordinate idMat calibBoxA = (0, 1) := by
    norm_num [transform_to_world_coordinate, pyInt, idMat, calibBoxA]
  have hB : transform_to_world_coordinate idMat calibBoxB = (10, 1) := by
    norm_num [transform_to_world_coordinate, pyInt, idMat, calibBoxB]
  have hA' : transform_to_world_coordinate_claimed idMat calibBoxA = (1 / 2, 1) := by
    norm_num [transform_to_world_coordinate_claimed, idMat, calibBoxA]
  have hB' : transform_to_world_coordinate_claimed idMat calibBoxB = (10, 1) := by
    norm_num [transform_to_world_coordinate_claimed, idMat, calibBoxB]
  have hL : ((calculate_box_distances DistMethod.CalibratedDistance idMat
      [calibBoxA, calibBoxB]).getD 0 []).getD 1 0 = Real.sqrt ((100 : ℚ) : ℝ) := by
    unfold calculate_box_distances
    rw [if_pos rfl]
    simp only [List.map_cons, List.map_nil, List.length_cons, List.length_nil]
    rw [if_neg (by norm_num)]
    unfold cdist euclid sqEuclid
    simp only [List.map_cons, List.map_nil, List.getD_cons_zero, List.getD_cons_succ]
    rw [hA, hB]
    norm_num
  rw [hL, hA', hB']
  have harg : ((((1 / 2 : ℚ), (1 : ℚ)).1 - ((10 : ℚ), (1 : ℚ)).1) ^ 2 +
      (((1 / 2 : ℚ), (1 : ℚ)).2 - ((10 : ℚ), (1 : ℚ)).2) ^ 2 : ℚ) = 361 / 4 := by
    norm_num
  rw [harg]
  rw [show ((100 : ℚ) : ℝ) = 10 ^ 2 by norm_num,
    show ((361 / 4 : ℚ) : ℝ) = (19 / 2) ^ 2 by norm_num,
    Real.sqrt_sq (by norm_num : (0 : ℝ) ≤ 10),
    Real.sqrt_sq (by norm_num : (0 : ℝ) ≤ 19 / 2)]
  norm_num

/-- Witness for C8 (amended): at the concrete boxes `calibBoxA`, `calibBoxB`
and the identity inverse homography, entry `[0][1]` equals the Euclidean
distance of the truncated-projection world points, i.e. 10. -/
theorem calibrated_entry_formula_witness :
    ((calculate_box_distances DistMethod.CalibratedDistance idMat
        [calibBoxA, calibBoxB]).getD 0 []).getD 1 0 =
    Real.sqrt
      ((((transform_to_world_coordinate idMat ([calibBoxA, calibBoxB].getD 0 default)).1 -
          (transform_to_world_coordinate idMat ([calibBoxA, calibBoxB].getD 1 default)).1) ^ 2 +
        ((transform_to_world_coordinate idMat ([calibBoxA, calibBoxB].getD 0 default)).2 -
          (transform_to_world_coordinate idMat ([calibBoxA, calibBoxB].getD 1 default)).2) ^ 2
        : ℚ)) :=
  calibrated_entry_formula idMat [calibBoxA, calibBoxB] 0 1 (by norm_num) (by norm_num)

/-! ## Helper lemmas for NMS idempotence: the lexicographic sort order -/

theorem lexLt_irrefl (kf : Nat → ℚ) (a : Nat) : ¬ lexLt kf a a := by
  rintro (h | ⟨-, h⟩)
  · exact lt_irrefl _ h
  · exact lt_irrefl _ h

theorem lexLt_asymm (kf : Nat → ℚ) {a b : Nat}
    (h1 : lexLt kf a b) (h2 : lexLt kf b a) : False := by
  rcases h1 with h1 | ⟨e1, l1⟩
  · rcases h2 with h2 | ⟨e2, l2⟩
    · exact lt_asymm h1 h2
    · rw [e2] at h1
      exact lt_irrefl _ h1
  · rcases h2 with h2 | ⟨e2, l2⟩
    · rw [e1] at h2
      exact lt_irrefl _ h2
    · exact Nat.lt_asymm l1 l2

theorem insertIdxAsc_perm (kf : Nat → ℚ) (i : Nat) :
    ∀ acc : List Nat, (insertIdxAsc kf i acc).Perm (i :: acc)
  | [] => List.Perm.refl _
  | j :: rest => by
    unfold insertIdxAsc
    by_cases h : kf j ≤ kf i
    · rw [if_pos h]
      exact ((insertIdxAsc_perm kf i rest).cons j).trans (List.Perm.swap i j rest)
    · rw [if_neg h]

theorem insertIdxAsc_pairwise (kf : Nat → ℚ) (i : Nat) :
    ∀ acc : List Nat, acc.Pairwise (lexLt kf) → (∀ x ∈ acc, x < i) →
      (insertIdxAsc kf i acc).Pairwise (lexLt kf)
  | [], _, _ => by simp [insertIdxAsc]
  | j :: rest, hpw, hlt => by
    unfold insertIdxAsc
    by_cases h : kf j ≤ kf i
    · rw [if_pos h]
      refine List.Pairwise.cons ?_
        (insertIdxAsc_pairwise kf i rest hpw.of_cons
          (fun x hx => hlt x (List.mem_cons_of_mem _ hx)))
      intro y hy
      rcases (List.mem_cons.mp ((insertIdxAsc_perm kf i rest).mem_iff.mp hy)) with rfl | hy'
      · rcases lt_or_eq_of_le h with hlt' | heq
        · exact Or.inl hlt'
        · exact Or.inr ⟨heq, hlt j (List.mem_cons_self _ _)⟩
      · exact List.rel_of_pairwise_cons hpw hy'
    · rw [if_neg h]
      have hij : kf i < kf j := lt_of_not_le h
      refine List.Pairwise.cons ?_ hpw
      intro y hy
      rcases List.mem_cons.mp hy with rfl | hy'
      · exact Or.inl hij
      · rcases List.rel_of_pairwise_cons hpw hy' with h1 | ⟨h1, -⟩
        · exact Or.inl (hij.trans h1)
        · exact Or.inl (h1 ▸ hij)

theorem foldl_insertIdxAsc_perm (kf : Nat → ℚ) :
    ∀ (is acc : List Nat),
      (is.foldl (fun a i => insertIdxAsc kf i a) acc).Perm (is ++ acc)
  | [], acc => by simp
  | i :: is, acc => by
    simp only [List.foldl_cons, List.cons_append]
    exact ((foldl_insertIdxAsc_perm kf is (insertIdxAsc kf i acc)).trans
      (List.Perm.append_left is (insertIdxAsc_perm kf i acc))).trans
      List.perm_middle

theorem foldl_insertIdxAsc_pairwise (kf : Nat → ℚ) :
    ∀ (is acc : List Nat), is.Pairwise (· < ·) → acc.Pairwise (lexLt kf) →
      (∀ x ∈ acc, ∀ i ∈ is, x < i) →
      (is.foldl (fun a i => insertIdxAsc kf i a) acc).Pairwise (lexLt kf)
  | [], acc, _, hacc, _ => by simpa using hacc
  | i :: is, acc, hpis, hacc, hcross => by
    simp only [List.foldl_cons]
    refine foldl_insertIdxAsc_pairwise kf is _ hpis.of_cons ?_ ?_
    · exact insertIdxAsc_pairwise kf i acc hacc
        (fun x hx => hcross x hx i (List.mem_cons_self _ _))
    · intro x hx i' hi'
      rcases List.mem_cons.mp ((insertIdxAsc_perm kf i acc).mem_iff.mp hx) with rfl | hx'
      · exact List.rel_of_pairwise_cons hpis hi'
      · exact hcross x hx' i' (List.mem_cons_of_mem _ hi')

theorem argsortBottom_perm (l : List Detection) :
    (argsortBottom l).Perm (List.range l.length) := by
  unfold argsortBottom
  simpa using foldl_insertIdxAsc_perm _ (List.range l.length) []

theorem argsortBottom_pairwise (l : List Detection) :
    (argsortBottom l).Pairwise (lexLt (fun i => bottomEdge (l.getD i default))) := by
  unfold argsortBottom
  exact foldl_insertIdxAsc_pairwise _ (List.range l.length) []
    (List.pairwise_lt_range _) List.Pairwise.nil (by simp)

/-! ## Helper lemmas for NMS idempotence: the suppression loop -/

theorem nmsLoop_nil (l : List Detection) (t : ℚ) (fuel : Nat) :
    nmsLoop l t fuel [] = [] := by
  cases fuel <;> rfl

theorem nmsLoopRev_nil (l : List Detection) (t : ℚ) (fuel : Nat) :
    nmsLoopRev l t fuel [] = [] := by
  cases fuel <;> rfl

theorem nmsLoop_eq_rev (l : List Detection) (t : ℚ) :
    ∀ (fuel : Nat) (idxs : List Nat),
      nmsLoop l t fuel idxs = nmsLoopRev l t fuel idxs.reverse := by
  intro fuel
  induction fuel with
  | zero => intro idxs; rfl
  | succ fuel ih =>
    intro idxs
    rcases List.eq_nil_or_concat idxs with h | ⟨s, i, h⟩
    · subst h; rfl
    · subst h
      simp only [List.concat_eq_append]
      have hlast : (s ++ [i]).getLastD 0 = i := List.getLastD_concat _ _ _
      have hdrop : (s ++ [i]).dropLast = s := List.dropLast_concat
      have hrev : (s ++ [i]).reverse = i :: s.reverse := by
        simp
      cases s with
      | nil =>
        simp only [List.nil_append] at hlast hdrop hrev ⊢
        simp [nmsLoop, nmsLoopRev, nmsLoop_nil, nmsLoopRev_nil, hlast]
      | cons a s' =>
        rw [hrev]
        rw [show (a :: s') ++ [i] = a :: (s' ++ [i]) from rfl]
        simp only [nmsLoop, nmsLoopRev]
        rw [show a :: (s' ++ [i]) = (a :: s') ++ [i] from rfl, hlast, hdrop]
        rw [List.filter_reverse]
        exact congrArg (i :: ·) (ih _)

theorem nmsLoopRev_sublist (l : List Detection) (t : ℚ) :
    ∀ (fuel : Nat) (dl : List Nat), (nmsLoopRev l t fuel dl).Sublist dl := by
  intro fuel
  induction fuel with
  | zero => intro dl; exact List.nil_sublist _
  | succ fuel ih =>
    intro dl
    cases dl with
    | nil => exact List.nil_sublist _
    | cons i rest =>
      simp only [nmsLoopRev]
      exact ((ih _).trans (List.filter_sublist rest)).cons₂ i

theorem nmsLoopRev_pairwise_overlap (l : List Detection) (t : ℚ) :
    ∀ (fuel : Nat) (dl : List Nat),
      (nmsLoopRev l t fuel dl).Pairwise
        (fun a b => overlapRatio (l.getD a default) (l.getD b default) ≤ t) := by
  intro fuel
  induction fuel with
  | zero => intro dl; exact List.Pairwise.nil
  | succ fuel ih =>
    intro dl
    cases dl with
    | nil => exact List.Pairwise.nil
    | cons i rest =>
      simp only [nmsLoopRev]
      refine List.Pairwise.cons ?_ (ih _)
      intro b hb
      have hb' := (nmsLoopRev_sublist l t fuel _).subset hb
      exact of_decide_eq_true (List.mem_filter.mp hb').2

theorem nmsLoopRev_eq_self (l : List Detection) (t : ℚ) :
    ∀ (fuel : Nat) (dl : List Nat), dl.length ≤ fuel →
      dl.Pairwise (fun a b => lexLt (fun i => bottomEdge (l.getD i default)) b a) →
      (∀ a b, a ∈ dl → b ∈ dl →
        lexLt (fun i => bottomEdge (l.getD i default)) b a →
        overlapRatio (l.getD a default) (l.getD b default) ≤ t) →
      nmsLoopRev l t fuel dl = dl := by
  intro fuel
  induction fuel with
  | zero =>
    intro dl hlen _ _
    rw [Nat.le_zero] at hlen
    rw [List.length_eq_zero] at hlen
    subst hlen
    rfl
  | succ fuel ih =>
    intro dl hlen hpw hov
    cases dl with
    | nil => rfl
    | cons i rest =>
      simp only [nmsLoopRev]
      have hfilter : rest.filter
          (fun k => decide (overlapRatio (l.getD i default) (l.getD k default) ≤ t)) =
          rest := by
        rw [List.filter_eq_self]
        intro b hb
        exact decide_eq_true (hov i b (List.mem_cons_self _ _)
          (List.mem_cons_of_mem _ hb) (List.rel_of_pairwise_cons hpw hb))
      rw [hfilter]
      refine congrArg (i :: ·) (ih rest (Nat.le_of_succ_le_succ hlen) hpw.of_cons ?_)
      intro a b ha hb
      exact hov a b (List.mem_cons_of_mem _ ha) (List.mem_cons_of_mem _ hb)

theorem nmsLoopRev_compat (l : List Detection) (t : ℚ) (fuel : Nat) (dl : List Nat)
    (hdesc : dl.Pairwise (fun a b => lexLt (fun i => bottomEdge (l.getD i default)) b a)) :
    ∀ u v, u ∈ nmsLoopRev l t fuel dl → v ∈ nmsLoopRev l t fuel dl →
      lexLt (fun i => bottomEdge (l.getD i default)) v u →
      overlapRatio (l.getD u default) (l.getD v default) ≤ t := by
  intro u v hu hv hlex
  have hpov := nmsLoopRev_pairwise_overlap l t fuel dl
  have hpdesc := List.Pairwise.sublist (nmsLoopRev_sublist l t fuel dl) hdesc
  obtain ⟨p, hp, hup⟩ := List.mem_iff_getElem.mp hu
  obtain ⟨q, hq, hvq⟩ := List.mem_iff_getElem.mp hv
  rcases Nat.lt_trichotomy p q with hpq | hpq | hpq
  · have := (List.pairwise_iff_getElem.mp hpov) p q hp hq hpq
    rw [hup, hvq] at this
    exact this
  · subst hpq
    rw [hup] at hvq
    subst hvq
    exact absurd hlex (lexLt_irrefl _ _)
  · have := (List.pairwise_iff_getElem.mp hpdesc) q p hq hp hpq
    rw [hup, hvq] at this
    exact absurd hlex (fun h => lexLt_asymm _ this h)

/-! ## Helper lemma: `selectByIdx` as a filtered index selection -/

theorem selectByIdx_eq_map_filter {α : Type} (d : α) (g : Nat → Bool) :
    ∀ (l : List α) (s : Nat),
      selectByIdx g s l =
        ((List.range' s l.length).filter g).map (fun i => l.getD (i - s) d) := by
  intro l
  induction l with
  | nil => intro s; simp [selectByIdx]
  | cons a rest ih =>
    intro s
    have htail : ∀ i ∈ (List.range' (s + 1) rest.length).filter g,
        (fun i => (a :: rest).getD (i - s) d) i = (fun i => rest.getD (i - (s + 1)) d) i := by
      intro i hi
      have hge : s + 1 ≤ i := (List.mem_range'_1.mp (List.mem_of_mem_filter hi)).1
      have heq : i - s = (i - (s + 1)) + 1 := by omega
      simp only [heq, List.getD_cons_succ]
    rw [show (a :: rest).length = rest.length + 1 from rfl, List.range'_succ]
    by_cases hg : g s = true
    · rw [List.filter_cons_of_pos hg, List.map_cons, Nat.sub_self, List.getD_cons_zero,
        List.map_congr_left htail, ← ih (s + 1)]
      simp [selectByIdx, hg]
    · have hg' : g s = false := by
        cases hq : g s
        · rfl
        · exact absurd hq hg
      rw [List.filter_cons_of_neg (by simp [hg']), List.map_congr_left htail, ← ih (s + 1)]
      simp [selectByIdx, hg']

/-! ## Helper lemma: lists whose positions are pairwise compatible are NMS
fixed points -/

theorem nms_fixed_of_compat (l : List Detection) (t : ℚ)
    (H : ∀ a b, a < l.length → b < l.length →
      lexLt (fun i => bottomEdge (l.getD i default)) b a →
      overlapRatio (l.getD a default) (l.getD b default) ≤ t) :
    non_max_suppression_fast l t = l := by
  by_cases hn : l.length = 0
  · rw [List.length_eq_zero] at hn
    subst hn
    rfl
  · unfold non_max_suppression_fast
    rw [if_neg hn]
    show selectByIdx
      (fun i => (nmsLoop l t (argsortBottom l).length (argsortBottom l)).contains i) 0 l = l
    have hperm := argsortBottom_perm l
    have hmemn : ∀ x ∈ (argsortBottom l).reverse, x < l.length := by
      intro x hx
      rw [List.mem_reverse] at hx
      exact List.mem_range.mp (hperm.mem_iff.mp hx)
    have hdesc : ((argsortBottom l).reverse).Pairwise
        (fun a b => lexLt (fun i => bottomEdge (l.getD i default)) b a) := by
      rw [List.pairwise_reverse]
      exact argsortBottom_pairwise l
    have hloop : nmsLoop l t (argsortBottom l).length (argsortBottom l) =
        (argsortBottom l).reverse := by
      rw [nmsLoop_eq_rev]
      refine nmsLoopRev_eq_self l t _ _ (by simp) hdesc ?_
      intro a b ha hb hl
      exact H a b (hmemn a ha) (hmemn b hb) hl
    rw [hloop]
    apply selectByIdx_all
    intro i _ hilt
    simp only [Nat.zero_add] at hilt
    have hmem : i ∈ (argsortBottom l).reverse := by
      rw [List.mem_reverse]
      exact hperm.mem_iff.mpr (List.mem_range.mpr hilt)
    exact List.elem_iff.mpr hmem

/-! ## Claim theorem: NMS idempotence -/

/-- C4: `non_max_suppression_fast` is idempotent — applying it to its own
output with the same threshold returns that output unchanged (even as a
list, hence certainly as a set). -/
theorem nms_idempotent (object_list : List Detection) (overlapThresh : ℚ) :
    non_max_suppression_fast (non_max_suppression_fast object_list overlapThresh)
      overlapThresh = non_max_suppression_fast object_list overlapThresh := by
  by_cases hn : object_list.length = 0
  · rw [List.length_eq_zero] at hn
    subst hn
    rfl
  · have hm : non_max_suppression_fast object_list overlapThresh =
        ((List.range object_list.length).filter
          (fun i => (nmsLoop object_list overlapThresh (argsortBottom object_list).length
            (argsortBottom object_list)).contains i)).map
          (fun i => object_list.getD i default) := by
      unfold non_max_suppression_fast
      rw [if_neg hn]
      show selectByIdx _ 0 object_list = _
      rw [selectByIdx_eq_map_filter default]
      rw [← List.range_eq_range']
      simp only [Nat.sub_zero]
    have hperm := argsortBottom_perm object_list
    have hdesc : ((argsortBottom object_list).reverse).Pairwise
        (fun a b => lexLt (fun i => bottomEdge (object_list.getD i default)) b a) := by
      rw [List.pairwise_reverse]
      exact argsortBottom_pairwise object_list
    have hpickrev : nmsLoop object_list overlapThresh (argsortBottom object_list).length
        (argsortBottom object_list) =
        nmsLoopRev object_list overlapThresh (argsortBottom object_list).length
          (argsortBottom object_list).reverse := nmsLoop_eq_rev _ _ _ _
    have hcompat : ∀ u v,
        u ∈ nmsLoop object_list overlapThresh (argsortBottom object_list).length
          (argsortBottom object_list) →
        v ∈ nmsLoop object_list overlapThresh (argsortBottom object_list).length
          (argsortBottom object_list) →
        lexLt (fun i => bottomEdge (object_list.getD i default)) v u →
        overlapRatio (object_list.getD u default) (object_list.getD v default) ≤
          overlapThresh := by
      rw [hpickrev]
      exact nmsLoopRev_compat object_list overlapThresh _ _ hdesc
    have hσpw : ((List.range object_list.length).filter
        (fun i => (nmsLoop object_list overlapThresh (argsortBottom object_list).length
          (argsortBottom object_list)).contains i)).Pairwise (· < ·) :=
      List.Pairwise.filter _ (List.pairwise_lt_range _)
    apply nms_fixed_of_compat
    rw [hm]
    intro a b ha hb hlex
    rw [List.length_map] at ha hb
    have hua : (((List.range object_list.length).filter
        (fun i => (nmsLoop object_list overlapThresh (argsortBottom object_list).length
          (argsortBottom object_list)).contains i)).map
        (fun i => object_list.getD i default)).getD a default =
        object_list.getD ((((List.range object_list.length).filter
          (fun i => (nmsLoop object_list overlapThresh (argsortBottom object_list).length
            (argsortBottom object_list)).contains i))).getD a 0) default :=
      getD_map_of_lt _ _ _ 0 ha
    have hub : (((List.range object_list.length).filter
        (fun i => (nmsLoop object_list overlapThresh (argsortBottom object_list).length
          (argsortBottom object_list)).contains i)).map
        (fun i => object_list.getD i default)).getD b default =
        object_list.getD ((((List.range object_list.length).filter
          (fun i => (nmsLoop object_list overlapThresh (argsortBottom object_list).length
            (argsortBottom object_list)).contains i))).getD b 0) default :=
      getD_map_of_lt _ _ _ 0 hb
    have hamem : (((List.range object_list.length).filter
        (fun i => (nmsLoop object_list overlapThresh (argsortBottom object_list).length
          (argsortBottom object_list)).contains i))).getD a 0 ∈
        ((List.range object_list.length).filter
          (fun i => (nmsLoop object_list overlapThresh (argsortBottom object_list).length
            (argsortBottom object_list)).contains i)) := by
      rw [List.getD_eq_getElem _ _ ha]
      exact List.getElem_mem _
    have hbmem : (((List.range object_list.length).filter
        (fun i => (nmsLoop object_list overlapThresh (argsortBottom object_list).length
          (argsortBottom object_list)).contains i))).getD b 0 ∈
        ((List.range object_list.length).filter
          (fun i => (nmsLoop object_list overlapThresh (argsortBottom object_list).length
            (argsortBottom object_list)).contains i)) := by
      rw [List.getD_eq_getElem _ _ hb]
      exact List.getElem_mem _
    have hapick := List.elem_iff.mp (List.mem_filter.mp hamem).2
    have hbpick := List.elem_iff.mp (List.mem_filter.mp hbmem).2
    rw [hua, hub]
    refine hcompat _ _ hapick hbpick ?_
    simp only [lexLt] at hlex ⊢
    rcases hlex with h | ⟨h, hba⟩
    · rw [hua, hub] at h
      exact Or.inl h
    · rw [hua, hub] at h
      refine Or.inr ⟨h, ?_⟩
      have := (List.pairwise_iff_getElem.mp hσpw) b a hb ha hba
      rw [List.getD_eq_getElem _ _ ha, List.getD_eq_getElem _ _ hb]
      exact this

end SmartDistancing
